import Mathlib

/-!
Verification of the travel-planner OpenAPI-to-MCP tool bridge.

This file gives a shallow embedding of the bridge's core logic:
  * `toZod` / `buildInputSchema`  — the JSON-Schema-to-Zod translator and the
    per-operation input schema builder (src/mcp/server.mjs, lines 25-93);
  * `sanitizeToolName`            — tool-name sanitization (lines 120-124);
  * `isRegisteredKey`             — the path/method registration filter inside
    `registerOpenApiSet` (lines 148-152);
  * `invokeTool`                  — the bound invocation closure registered for
    each operation (lines 167-214), up to the point where the outbound HTTP
    request is handed to axios;
  * `handleWithTransport` and the credential-relay logic of the streamable
    HTTP entry point (the express server file, lines 47-97).

JavaScript values flowing through these functions are modelled by the `Json`
inductive; JS `undefined` is modelled by `Option.none` wherever a value may be
absent.  JSON numbers are modelled as `Int`: none of the verified properties
depends on fractional or floating-point behaviour.
-/

/-- A JSON value (a parsed JavaScript value as produced by `JSON.parse` /
`express.json`).  `null` is distinct from an absent (`undefined`) value, which
is modelled by `Option.none` at use sites. -/
inductive Json where
  | null
  | bool (b : Bool)
  | num (n : Int)
  | str (s : String)
  | arr (elems : List Json)
  | obj (fields : List (String × Json))

mutual

/-- Structural equality of JSON values (JS deep equality on parsed JSON). -/
def jsonBeq : Json → Json → Bool
  | .null, .null => true
  | .bool a, .bool b => a == b
  | .num a, .num b => a == b
  | .str a, .str b => a == b
  | .arr a, .arr b => jsonListBeq a b
  | .obj a, .obj b => jsonFieldsBeq a b
  | _, _ => false

def jsonListBeq : List Json → List Json → Bool
  | [], [] => true
  | a :: as', b :: bs' => jsonBeq a b && jsonListBeq as' bs'
  | _, _ => false

def jsonFieldsBeq : List (String × Json) → List (String × Json) → Bool
  | [], [] => true
  | (k, v) :: as', (k', v') :: bs' => k == k' && jsonBeq v v' && jsonFieldsBeq as' bs'
  | _, _ => false

end

mutual

theorem jsonBeq_iff : ∀ (a b : Json), jsonBeq a b = true ↔ a = b
  | .null, .null => by simp [jsonBeq]
  | .null, .bool _ => by simp [jsonBeq]
  | .null, .num _ => by simp [jsonBeq]
  | .null, .str _ => by simp [jsonBeq]
  | .null, .arr _ => by simp [jsonBeq]
  | .null, .obj _ => by simp [jsonBeq]
  | .bool _, .null => by simp [jsonBeq]
  | .bool a, .bool b => by simp [jsonBeq]
  | .bool _, .num _ => by simp [jsonBeq]
  | .bool _, .str _ => by simp [jsonBeq]
  | .bool _, .arr _ => by simp [jsonBeq]
  | .bool _, .obj _ => by simp [jsonBeq]
  | .num _, .null => by simp [jsonBeq]
  | .num _, .bool _ => by simp [jsonBeq]
  | .num a, .num b => by simp [jsonBeq]
  | .num _, .str _ => by simp [jsonBeq]
  | .num _, .arr _ => by simp [jsonBeq]
  | .num _, .obj _ => by simp [jsonBeq]
  | .str _, .null => by simp [jsonBeq]
  | .str _, .bool _ => by simp [jsonBeq]
  | .str _, .num _ => by simp [jsonBeq]
  | .str a, .str b => by simp [jsonBeq]
  | .str _, .arr _ => by simp [jsonBeq]
  | .str _, .obj _ => by simp [jsonBeq]
  | .arr _, .null => by simp [jsonBeq]
  | .arr _, .bool _ => by simp [jsonBeq]
  | .arr _, .num _ => by simp [jsonBeq]
  | .arr _, .str _ => by simp [jsonBeq]
  | .arr a, .arr b => by simp [jsonBeq, jsonListBeq_iff a b]
  | .arr _, .obj _ => by simp [jsonBeq]
  | .obj _, .null => by simp [jsonBeq]
  | .obj _, .bool _ => by simp [jsonBeq]
  | .obj _, .num _ => by simp [jsonBeq]
  | .obj _, .str _ => by simp [jsonBeq]
  | .obj _, .arr _ => by simp [jsonBeq]
  | .obj a, .obj b => by simp [jsonBeq, jsonFieldsBeq_iff a b]

theorem jsonListBeq_iff : ∀ (a b : List Json), jsonListBeq a b = true ↔ a = b
  | [], [] => by simp [jsonListBeq]
  | [], _ :: _ => by simp [jsonListBeq]
  | _ :: _, [] => by simp [jsonListBeq]
  | a :: as', b :: bs' => by
      simp [jsonListBeq, jsonBeq_iff a b, jsonListBeq_iff as' bs']

theorem jsonFieldsBeq_iff : ∀ (a b : List (String × Json)), jsonFieldsBeq a b = true ↔ a = b
  | [], [] => by simp [jsonFieldsBeq]
  | [], _ :: _ => by simp [jsonFieldsBeq]
  | _ :: _, [] => by simp [jsonFieldsBeq]
  | (k, v) :: as', (k', v') :: bs' => by
      simp [jsonFieldsBeq, jsonBeq_iff v v', jsonFieldsBeq_iff as' bs', Prod.ext_iff,
        and_assoc]

end

instance : DecidableEq Json := fun a b => decidable_of_iff _ (jsonBeq_iff a b)

/-- First-match field lookup in a JS object's entry list (JS property access on
an object produced by `JSON.parse`, whose keys are unique). -/
def lookupField : List (String × Json) → String → Option Json
  | [], _ => none
  | (k, v) :: rest, key => if k = key then some v else lookupField rest key

/-- JS property access `value.key`: `undefined` (`none`) unless `value` is an
object carrying the key. -/
def jsGet : Json → String → Option Json
  | .obj fields, key => lookupField fields key
  | _, _ => none

/-- JS truthiness of a JSON value. -/
def jsTruthy : Json → Bool
  | .null => false
  | .bool b => b
  | .num n => n != 0
  | .str s => s != ""
  | .arr _ => true
  | .obj _ => true

/-- JS truthiness where `none` models `undefined`. -/
def jsTruthyOpt : Option Json → Bool
  | none => false
  | some v => jsTruthy v

/-- JS `x || y` on an optionally-absent left operand. -/
def jsOrJson : Option Json → Json → Json
  | some v, y => if jsTruthy v then v else y
  | none, y => y

/-- Insert-or-replace of a key in a JS object's entry list: a spread
`\x7b...o, key: v\x7d` (and equally an in-place property assignment) keeps an
existing key at its position with the new value, and appends a fresh key at the
end. -/
def upsert {α : Type} : List (String × α) → String → α → List (String × α)
  | [], key, v => [(key, v)]
  | (k, w) :: rest, key, v =>
      if k = key then (k, v) :: rest else (k, w) :: upsert rest key v

/-- JS object spread `\x7b...target, key: v\x7d`.  A non-object target spreads
to an object holding only the new key (exact for numbers, booleans and null;
string/array element spreading is irrelevant to the verified claims and is
approximated the same way). -/
def jsSpreadSet : Json → String → Json → Json
  | .obj fields, key, v => .obj (upsert fields key v)
  | _, key, v => .obj [(key, v)]

/-- A JSON-Schema fragment as consumed by `toZod` (src/mcp/server.mjs,
lines 25-69).  Fields mirror the properties the source reads:
`type`, `items`, `properties`, `required`, `additionalProperties`, `enum`,
`description`.  An `additionalProperties` of `false` (or absent) is modelled as
`none` (both are falsy in the source's test); `additionalProperties: true` is
modelled as `some` of the fragment with every field empty, on which `toZod`
yields `z.any()` exactly as the source does on the boolean `true`.  An absent
`enum` is modelled as `[]` (the source ignores empty enums). -/
inductive SchemaFragment where
  | mk (type : Option String)
       (items : Option SchemaFragment)
       (properties : List (String × SchemaFragment))
       (required : List String)
       (additionalProperties : Option SchemaFragment)
       (enum : List Json)
       (description : Option String)

def SchemaFragment.type : SchemaFragment → Option String
  | .mk t _ _ _ _ _ _ => t

def SchemaFragment.items : SchemaFragment → Option SchemaFragment
  | .mk _ i _ _ _ _ _ => i

def SchemaFragment.properties : SchemaFragment → List (String × SchemaFragment)
  | .mk _ _ p _ _ _ _ => p

def SchemaFragment.required : SchemaFragment → List String
  | .mk _ _ _ r _ _ _ => r

def SchemaFragment.additionalProperties : SchemaFragment → Option SchemaFragment
  | .mk _ _ _ _ a _ _ => a

def SchemaFragment.enum : SchemaFragment → List Json
  | .mk _ _ _ _ _ e _ => e

def SchemaFragment.description : SchemaFragment → Option String
  | .mk _ _ _ _ _ _ d => d

/-- A Zod schema node as built by the translator.  `objectNode`'s second
argument models the unknown-field policy: `none` is `.passthrough()`,
`some c` is `.catchall(c)` (the translator always sets one of the two;
Zod's default strip mode never occurs here). -/
inductive ZodNode where
  | stringNode
  | numberNode
  | booleanNode
  | anyNode
  | arrayNode (elem : ZodNode)
  | objectNode (shape : List (String × ZodNode)) (catchallSchema : Option ZodNode)
  | optionalNode (inner : ZodNode)
  | unionNode (alts : List ZodNode)
  | literalNode (value : Json)
  | describeNode (doc : String) (inner : ZodNode)

mutual

/-- `toZod` on a present (truthy) schema fragment: the switch on `schema.type`,
then the non-empty-`enum` override, then the `description` wrapper
(src/mcp/server.mjs, lines 27-68). -/
def toZodFrag : SchemaFragment → ZodNode
  | .mk ty items props req ap en desc =>
    let base : ZodNode :=
      match ty with
      | some "string" => .stringNode
      | some "integer" => .numberNode
      | some "number" => .numberNode
      | some "boolean" => .booleanNode
      | some "array" =>
          .arrayNode (match items with
            | some itemsSchema => toZodFrag itemsSchema
            | none => .anyNode)
      | some "object" =>
          .objectNode (toZodProps props req)
            (match ap with
             | some apSchema => some (toZodFrag apSchema)
             | none => none)
      | _ => .anyNode
    let withEnum : ZodNode :=
      if en.isEmpty then base else .unionNode (en.map ZodNode.literalNode)
    match desc with
    | some d => .describeNode d withEnum
    | none => withEnum

/-- The `for (const [key, propSchema] of Object.entries(schema.properties))`
loop: one shape entry per declared property, optional-wrapped unless the key is
in the `required` list (src/mcp/server.mjs, lines 44-49). -/
def toZodProps : List (String × SchemaFragment) → List String → List (String × ZodNode)
  | [], _ => []
  | (key, propSchema) :: rest, req =>
      (key,
        if key ∈ req then toZodFrag propSchema
        else .optionalNode (toZodFrag propSchema)) :: toZodProps rest req

end

/-- `toZod(schema)`: returns `z.any()` on a falsy (absent) schema, otherwise
translates the fragment (src/mcp/server.mjs, line 26). -/
def toZod : Option SchemaFragment → ZodNode
  | none => .anyNode
  | some s => toZodFrag s

example : toZod none = .anyNode := rfl
example :
    toZod (some (.mk (some "string") none [] [] none [] none)) = .stringNode := rfl
example :
    toZod (some (.mk (some "object") none [("a", .mk (some "string") none [] [] none [] none)]
        ["a"] none [] none)) =
      .objectNode [("a", .stringNode)] none := rfl

/-- Whether a field schema tolerates an absent key: Zod's `.optional()` wrapper
does (possibly under `.describe`, which preserves optionality). -/
def nodeAllowsMissing : ZodNode → Bool
  | .optionalNode _ => true
  | .describeNode _ inner => nodeAllowsMissing inner
  | _ => false

mutual

/-- Acceptance semantics of the Zod nodes built by the translator: which JSON
values parse successfully.  `objectNode` checks each declared field (missing
keys allowed only for optional fields) and applies the unknown-field policy to
keys outside the shape: `.passthrough()` accepts them untyped, `.catchall(c)`
requires them to conform to `c`.  `describeNode` is behaviourally transparent. -/
def zodAccepts : ZodNode → Json → Bool
  | .stringNode, v => match v with | .str _ => true | _ => false
  | .numberNode, v => match v with | .num _ => true | _ => false
  | .booleanNode, v => match v with | .bool _ => true | _ => false
  | .anyNode, _ => true
  | .arrayNode elem, v =>
      match v with
      | .arr xs => xs.all (fun x => zodAccepts elem x)
      | _ => false
  | .objectNode shape catchallSchema, v =>
      match v with
      | .obj fields =>
          zodAcceptsShape shape fields &&
          (match catchallSchema with
           | some c =>
               fields.all (fun kv => decide (kv.1 ∈ shape.map Prod.fst) || zodAccepts c kv.2)
           | none => true)
      | _ => false
  | .optionalNode inner, v => zodAccepts inner v
  | .unionNode alts, v => zodAcceptsUnion alts v
  | .literalNode l, v => jsonBeq v l
  | .describeNode _ inner, v => zodAccepts inner v

/-- Declared-field check for an object node. -/
def zodAcceptsShape : List (String × ZodNode) → List (String × Json) → Bool
  | [], _ => true
  | (key, node) :: rest, fields =>
      (match lookupField fields key with
       | none => nodeAllowsMissing node
       | some v => zodAccepts node v) && zodAcceptsShape rest fields

/-- A union accepts a value when some alternative does. -/
def zodAcceptsUnion : List ZodNode → Json → Bool
  | [], _ => false
  | a :: rest, v => zodAccepts a v || zodAcceptsUnion rest v

end

/-- Remove `.describe` metadata wrappers (documentation only, no behaviour). -/
def stripDescription : ZodNode → ZodNode
  | .describeNode _ inner => stripDescription inner
  | n => n

example :
    zodAccepts (.objectNode [("a", .stringNode), ("b", .optionalNode .numberNode)] none)
      (.obj [("a", .str "x"), ("c", .bool true)]) = true := rfl
example :
    zodAccepts (.objectNode [("a", .stringNode)] none) (.obj [("c", .bool true)]) = false := rfl
example :
    zodAccepts (.objectNode [] (some .numberNode)) (.obj [("c", .bool true)]) = false := rfl

/-- The character class `[A-Za-z0-9_-]` of the tool-name sanitizer. -/
def isToolNameChar (c : Char) : Bool :=
  ('A' ≤ c && c ≤ 'Z') || ('a' ≤ c && c ≤ 'z') || ('0' ≤ c && c ≤ '9') || c = '_' || c = '-'

/-- One step of `raw.replace(/[^A-Za-z0-9_-]/g, '-')`. -/
def cleanChar (c : Char) : Char :=
  if isToolNameChar c then c else '-'

/-- The sanitizer body: replace every character outside `[A-Za-z0-9_-]` with
`'-'`, then truncate to 64 characters (`.slice(0, 64)`; JS counts UTF-16 units
where Lean counts characters — they agree on all the identifier-class and
basic-plane text involved here). -/
def sanitizeName (s : String) : String :=
  ⟨(s.data.map cleanChar).take 64⟩

/-- `sanitizeToolName(label, operationId)` (src/mcp/server.mjs, lines 120-124):
sanitizes the raw name `label ++ "-" ++ operationId`. -/
def sanitizeToolName (label operationId : String) : String :=
  sanitizeName (label ++ "-" ++ operationId)

example : sanitizeToolName "client" "get /hotels" = "client-get--hotels" := rfl

/-- JS `s.startsWith(pre)` (computed on the character lists). -/
def strStartsWith (s pre : String) : Bool :=
  pre.data.isPrefixOf s.data

/-- JS `typeof v === 'object' && v !== null && !Array.isArray(v)` — the value
test applied to each path-item entry before registration. -/
def isPlainObject : Json → Bool
  | .obj _ => true
  | _ => false

/-- The registration filter of `registerOpenApiSet` (src/mcp/server.mjs,
lines 150-152): a path-item key is registered as a tool unless it is the
literal `parameters` key, its value is not a plain object, or the key starts
with `x-`.  The three tests run in that order. -/
def isRegisteredKey (methodKey : String) (operation : Json) : Bool :=
  if methodKey = "parameters" then false
  else if !(isPlainObject operation) then false
  else if strStartsWith methodKey "x-" then false
  else true

/-- The path-item entries that survive the registration filter. -/
def registeredOps (methods : List (String × Json)) : List (String × Json) :=
  methods.filter (fun kv => isRegisteredKey kv.1 kv.2)

/-- Modelled from the spec: the set of known HTTP verbs named by the claim that
the registry skips "any key outside the known HTTP verbs" (the source has no
such list; this is the spec-side reference for the comparison). -/
def knownHttpVerbs : List String :=
  ["get", "put", "post", "delete", "options", "head", "patch", "trace"]

mutual

/-- JS stringification of one array element inside `Array.prototype.toString`
(`join(",")`): `null` (and `undefined`) become the empty string. -/
def jsStringElem : Json → String
  | .null => ""
  | .bool b => if b then "true" else "false"
  | .num n => toString n
  | .str s => s
  | .arr ys => jsStringElems ys
  | .obj _ => "[object Object]"

def jsStringElems : List Json → String
  | [] => ""
  | [x] => jsStringElem x
  | x :: rest => jsStringElem x ++ "," ++ jsStringElems rest

end

/-- JS `String(value)` on a parsed JSON value. -/
def jsString : Json → String
  | .null => "null"
  | .bool b => if b then "true" else "false"
  | .num n => toString n
  | .str s => s
  | .arr xs => jsStringElems xs
  | .obj _ => "[object Object]"

/-- The characters `encodeURIComponent` leaves unescaped:
`A-Z a-z 0-9 - _ . ! ~ * ' ( )` (39 is the apostrophe's code point). -/
def uriUnreservedChar (c : Char) : Bool :=
  ('A' ≤ c && c ≤ 'Z') || ('a' ≤ c && c ≤ 'z') || ('0' ≤ c && c ≤ '9') ||
  c = '-' || c = '_' || c = '.' || c = '!' || c = '~' || c = '*' ||
  c = Char.ofNat 39 || c = '(' || c = ')'

/-- Upper-case hexadecimal digit for a value below 16. -/
def hexDigitChar (n : Nat) : Char :=
  if n < 10 then Char.ofNat (48 + n) else Char.ofNat (55 + n)

/-- Percent-encoding of one byte. -/
def percentEncodeByte (b : Nat) : List Char :=
  ['%', hexDigitChar (b / 16), hexDigitChar (b % 16)]

/-- UTF-8 bytes of one character (as `encodeURIComponent` emits for a Unicode
code point; Lean's `Char` excludes the lone surrogates that make the JS
function throw). -/
def utf8Bytes (c : Char) : List Nat :=
  let n := c.toNat
  if n < 128 then [n]
  else if n < 2048 then [192 + n / 64, 128 + n % 64]
  else if n < 65536 then [224 + n / 4096, 128 + (n / 64) % 64, 128 + n % 64]
  else [240 + n / 262144, 128 + (n / 4096) % 64, 128 + (n / 64) % 64, 128 + n % 64]

/-- JS `encodeURIComponent`. -/
def encodeURIComponent (s : String) : String :=
  ⟨(s.data.map (fun c =>
      if uriUnreservedChar c then [c]
      else ((utf8Bytes c).map percentEncodeByte).flatten)).flatten⟩

/-- The characters `URLSearchParams` serialization leaves unescaped
(`application/x-www-form-urlencoded`): alphanumerics and `* - . _`. -/
def formUnreservedChar (c : Char) : Bool :=
  ('A' ≤ c && c ≤ 'Z') || ('a' ≤ c && c ≤ 'z') || ('0' ≤ c && c ≤ '9') ||
  c = '*' || c = '-' || c = '.' || c = '_'

/-- `application/x-www-form-urlencoded` escaping of one component (space
becomes `+`). -/
def formEncode (s : String) : String :=
  ⟨(s.data.map (fun c =>
      if formUnreservedChar c then [c]
      else if c = ' ' then ['+']
      else ((utf8Bytes c).map percentEncodeByte).flatten)).flatten⟩

/-- `URLSearchParams.toString()` on the appended (name, value) pairs. -/
def searchParamsToString (queryParams : List (String × String)) : String :=
  String.intercalate "&" (queryParams.map (fun kv => formEncode kv.1 ++ "=" ++ formEncode kv.2))

/-- JS `String.prototype.replace` with a plain-string pattern: replaces the
first occurrence only.  (The replacement strings produced here are
percent-encoded, so they contain no `$`-patterns.) -/
def listReplaceFirst : List Char → List Char → List Char → List Char
  | [], pat, repl => if pat.isEmpty then repl else []
  | c :: rest, pat, repl =>
      if pat.isPrefixOf (c :: rest) then repl ++ (c :: rest).drop pat.length
      else c :: listReplaceFirst rest pat repl

def replaceFirst (s pat repl : String) : String :=
  ⟨listReplaceFirst s.data pat.data repl.data⟩

example : replaceFirst "/hotels/\x7bid\x7d" "\x7bid\x7d" "42" = "/hotels/42" := rfl

/-- One declared OpenAPI parameter: `name`, `in` (here `paramIn`), `required`,
`schema`. -/
structure Param where
  name : String
  paramIn : String
  required : Bool
  schema : Option SchemaFragment

/-- An OpenAPI request body: its `required` flag and, when present, the
`content['application/json'].schema` fragment. -/
structure RequestBody where
  required : Bool
  jsonSchema : Option SchemaFragment

/-- The parts of an OpenAPI operation object that the bridge reads.
An absent `parameters` array is modelled as `[]` (the source reads
`operation.parameters || []`). -/
structure Operation where
  operationId : Option String
  summary : Option String
  description : Option String
  parameters : List Param
  requestBody : Option RequestBody

/-- The `\x7b type: 'string' \x7d` fallback for a parameter without a schema. -/
def stringTypeFragment : SchemaFragment := .mk (some "string") none [] [] none [] none

/-- The `\x7b type: 'object' \x7d` fallback for a request body without a JSON
schema. -/
def objectTypeFragment : SchemaFragment := .mk (some "object") none [] [] none [] none

/-- The fixed optional `authorization` override field added to every tool's
input schema. -/
def authorizationField : ZodNode :=
  .describeNode "Optional Authorization header override; defaults to the server token for this spec."
    (.optionalNode .stringNode)

/-- `buildInputSchema(operation)` (src/mcp/server.mjs, lines 71-93): the
optional `authorization` field, one field per declared parameter (required iff
the parameter is), and — when the operation declares a request body — a `body`
field, all in a passthrough object. -/
def buildInputSchema (operation : Operation) : ZodNode :=
  let shape : List (String × ZodNode) := [("authorization", authorizationField)]
  let shape := operation.parameters.foldl
    (fun sh param =>
      let schema := match param.schema with
        | some s => s
        | none => stringTypeFragment
      let field := toZodFrag schema
      upsert sh param.name (if param.required then field else .optionalNode field))
    shape
  let shape := match operation.requestBody with
    | some rb =>
        let bodySchema := match rb.jsonSchema with
          | some s => s
          | none => objectTypeFragment
        let field := toZodFrag bodySchema
        upsert shape "body" (if rb.required then field else .optionalNode field)
    | none => shape
  .objectNode shape none

/-- The outbound URL, kept symbolic: `new URL(urlPath, baseUrl)` with the
query string assigned to `url.search` (empty when no query parameter was
appended).  The verified claims are insensitive to URL serialization, so the
base, the substituted path and the encoded query are kept as separate parts. -/
structure BuiltUrl where
  base : String
  pathPart : String
  search : String
  deriving DecidableEq

/-- The axios request configuration assembled by the bound invocation
function: method, URL, the `Authorization` and `Content-Type` headers, and the
request body (`data`). -/
structure RequestConfig where
  method : String
  url : BuiltUrl
  authorizationHeader : Option Json
  contentTypeHeader : Option String
  data : Option Json
  deriving DecidableEq

/-- What the bound invocation function does before any network traffic:
either it returns the structured error result
`\x7b isError: true, content: [\x7b type: 'text', text \x7d] \x7d` (here just
its text), or it reaches `axios(requestConfig)` with the assembled request.
The network call itself and the formatting of its response are outside the
model. -/
inductive ToolOutcome where
  | errorResult (text : String)
  | httpRequest (config : RequestConfig)
  deriving DecidableEq

/-- The `rest` object of `const \x7b authorization, body, ...rest \x7d = args`:
every key except `authorization` and `body`. -/
def restArgsOf (args : String → Option Json) : String → Option Json :=
  fun key => if key = "authorization" || key = "body" then none else args key

/-- The parameter loop of the bound invocation function (src/mcp/server.mjs,
lines 177-191): path parameters must be present and non-null (else the loop
returns the error immediately), present query parameters are appended to the
query string. -/
def buildParams :
    List Param → (String → Option Json) → String → List (String × String) →
      Except String (String × List (String × String))
  | [], _, urlPath, queryParams => .ok (urlPath, queryParams)
  | param :: rest, restArgs, urlPath, queryParams =>
      let val := restArgs param.name
      if param.paramIn = "path" then
        match val with
        | none => .error param.name
        | some v =>
            if v = .null then .error param.name
            else
              buildParams rest restArgs
                (replaceFirst urlPath ("\x7b" ++ param.name ++ "\x7d")
                  (encodeURIComponent (jsString v)))
                queryParams
      else if param.paramIn = "query" then
        match val with
        | none => buildParams rest restArgs urlPath queryParams
        | some v => buildParams rest restArgs urlPath (queryParams ++ [(param.name, jsString v)])
      else buildParams rest restArgs urlPath queryParams

/-- The bound invocation function registered for one operation
(src/mcp/server.mjs, lines 167-214), as a function of the call-time arguments
(`none` models an absent key).  It mirrors the source line by line: split off
`authorization` and `body`; resolve the token as `authorization || defaultAuth`
and set the `Authorization` header when the token is truthy; set
`Content-Type: application/json` iff the operation declares a request body;
run the parameter loop (returning the structured error on a missing path
parameter, before any network request); otherwise assemble the axios request
with the substituted path, the query string, and `data = body` iff the
operation declares a request body. -/
def invokeTool (pathKey method : String) (operation : Operation)
    (defaultAuth baseUrl : String) (args : String → Option Json) : ToolOutcome :=
  let authorization := args "authorization"
  let body := args "body"
  let hasRequestBody := operation.requestBody.isSome
  let token : Json := jsOrJson authorization (.str defaultAuth)
  let authHeader : Option Json := if jsTruthy token then some token else none
  let contentType : Option String := if hasRequestBody then some "application/json" else none
  match buildParams operation.parameters (restArgsOf args) pathKey [] with
  | .error name => .errorResult ("Missing required path param: " ++ name)
  | .ok (urlPath, queryParams) =>
      .httpRequest
        { method := method
          url :=
            { base := baseUrl
              pathPart := urlPath
              search := if queryParams.isEmpty then "" else searchParamsToString queryParams }
          authorizationHeader := authHeader
          contentTypeHeader := contentType
          data := if hasRequestBody then body else none }

example :
    invokeTool "/offers/today" "get" ⟨none, none, none, [], none⟩ "tok" "http://api"
      (fun _ => none) =
      .httpRequest ⟨"get", ⟨"http://api", "/offers/today", ""⟩, some (.str "tok"), none, none⟩ :=
  rfl

example :
    invokeTool "/hotels/\x7bid\x7d" "get" ⟨none, none, none, [⟨"id", "path", true, none⟩], none⟩
      "tok" "http://api" (fun _ => none) =
      .errorResult "Missing required path param: id" := rfl

/-- The whitespace class matched by the regex `\s` and by `String.prototype`
trimming, restricted to the ASCII members (space, tab, line feed, vertical
tab, form feed, carriage return); the additional Unicode space characters
never occur in the header values involved here. -/
def jsWhitespaceChar (c : Char) : Bool :=
  c = ' ' || c = '\t' || c = '\n' || c = Char.ofNat 11 || c = Char.ofNat 12 || c = '\r'

/-- JS `String.prototype.trim()`. -/
def jsTrim (s : String) : String :=
  ⟨((s.data.dropWhile jsWhitespaceChar).reverse.dropWhile jsWhitespaceChar).reverse⟩

/-- `value.replace(/^Bearer\s+/i, '')`: drop a leading case-insensitive
`Bearer` followed by at least one whitespace character, consuming the maximal
whitespace run (`\s+` is greedy); otherwise return the string unchanged. -/
def stripBearer (s : String) : String :=
  match s.data with
  | c1 :: c2 :: c3 :: c4 :: c5 :: c6 :: c7 :: rest =>
      if c1.toLower = 'b' && c2.toLower = 'e' && c3.toLower = 'a' && c4.toLower = 'r' &&
          c5.toLower = 'e' && c6.toLower = 'r' && jsWhitespaceChar c7 then
        ⟨rest.dropWhile jsWhitespaceChar⟩
      else s
  | _ => s

/-- `value.replace(/^Bearer\s+/i, '').trim()` as applied to each candidate
header. -/
def stripBearerTrim (s : String) : String := jsTrim (stripBearer s)

example : stripBearerTrim "Bearer 1234567" = "1234567" := rfl
example : stripBearerTrim "bearer   tok  " = "tok" := rfl
example : stripBearerTrim "Bearer" = "Bearer" := rfl
example : stripBearerTrim "Bearer   " = "" := rfl

/-- JS `x || y` on optionally-absent strings (an empty string is falsy). -/
def jsOrStr : Option String → Option String → Option String
  | some s, y => if s = "" then y else some s
  | none, y => y

/-- The relay's candidate computation (the express server file, lines 84-86):
`req.headers['authorization']?.replace(/^Bearer\s+/i, '').trim() ||
 req.headers['x-mcp-proxy-auth']?.replace(/^Bearer\s+/i, '').trim()`. -/
def headerAuthValue (headers : String → Option String) : Option String :=
  jsOrStr ((headers "authorization").map stripBearerTrim)
    ((headers "x-mcp-proxy-auth").map stripBearerTrim)

/-- The credential actually injected: `headerAuthValue` when it is truthy
(present and non-empty), per the `if (headerAuth)` guard on line 87. -/
def effectiveHeaderCred (headers : String → Option String) : Option String :=
  match headerAuthValue headers with
  | some s => if s = "" then none else some s
  | none => none

/-- Lines 83-89 of the express server file, acting on a `tools/call` request's
arguments object: `some newArgs` exactly when the mutation
`req.body.params.arguments = \x7b ...args, authorization: headerAuth \x7d`
runs (the arguments carry no truthy `authorization` and a candidate header
yields a truthy stripped value), `none` when the arguments are left alone. -/
def injectedArguments (headers : String → Option String) (args : Json) : Option Json :=
  if jsTruthyOpt (jsGet args "authorization") then none
  else
    match effectiveHeaderCred headers with
    | some s => some (jsSpreadSet args "authorization" (.str s))
    | none => none

/-- The arguments object after the Credential Relay ran over it. -/
def relayArguments (headers : String → Option String) (args : Json) : Json :=
  match injectedArguments headers args with
  | some newArgs => newArgs
  | none => args

/-- The whole `if (hasBody && req.body && req.body.method === 'tools/call' &&
req.body.params)` block (lines 81-91) acting on a present request body: when
the body is a truthy `tools/call` envelope with truthy `params`, the relay runs
on `params.arguments || \x7b\x7d` and writes the injected arguments back into
`params`; otherwise the body passes through untouched.  (A truthy non-object
`params` would make the in-place JS assignment throw into the 500 handler;
no verified claim exercises that corner and the write-back here models the
object case.) -/
def relayBody (headers : String → Option String) (body : Json) : Json :=
  if jsTruthy body && decide (jsGet body "method" = some (.str "tools/call")) &&
      jsTruthyOpt (jsGet body "params") then
    match jsGet body "params" with
    | some params =>
        let args := jsOrJson (jsGet params "arguments") (.obj [])
        match injectedArguments headers args with
        | some newArgs => jsSpreadSet body "params" (jsSpreadSet params "arguments" newArgs)
        | none => body
    | none => body
  else body

/-- A header value as express exposes it: a single string or, for a repeated
header, an array of strings. -/
inductive HeaderVal where
  | single (s : String)
  | multi (values : List String)

/-- `normalizeSessionId` (lines 47-50): `null` on a falsy raw value (absent or
empty string), the first element of an array value, the string itself
otherwise. -/
def normalizeSessionId : Option HeaderVal → Option String
  | none => none
  | some (.single s) => if s = "" then none else some s
  | some (.multi values) => values.head?

/-- The session table: `transportCache` keyed by session id.  Transports are
identified by a plain `Nat`; an expired entry is simply an absent one (the
cache returns `undefined` for both). -/
def lookupSession : List (String × Nat) → String → Option Nat
  | [], _ => none
  | (sid, tid) :: rest, key => if sid = key then some tid else lookupSession rest key

/-- `sessionId ? transportCache.get(sessionId) : null` (line 54). -/
def activeTransport (table : List (String × Nat)) : Option String → Option Nat
  | some sid => if sid = "" then none else lookupSession table sid
  | none => none

/-- An inbound request as the transport handler sees it: the `mcp-session-id`
header, whether the route passes a body (POST does, GET/DELETE do not), the
parsed body (`none` models `undefined`), and the other inbound headers
(lower-cased names, as node exposes them). -/
structure McpRequest where
  sessionHeader : Option HeaderVal
  hasBody : Bool
  body : Option Json
  headers : String → Option String

/-- What one `handleWithTransport` call does: reply 400 with a structured
JSON-RPC error (touching no transport), create a fresh transport and forward
the (possibly credential-injected) body to it, or forward to the existing
transport bound to the session. -/
inductive HandleOutcome where
  | badRequest (status : Nat) (response : Json)
  | initNew (transportId : Nat) (forwarded : Option Json)
  | forward (transportId : Nat) (forwarded : Option Json)
  deriving DecidableEq

/-- The exact 400 response body of lines 69-77. -/
def noValidSessionError : Json :=
  .obj [("jsonrpc", .str "2.0"),
        ("error", .obj [("code", .num (-32000)),
                        ("message", .str "Bad Request: No valid session ID provided")]),
        ("id", .null)]

/-- The body handed to `transport.handleRequest` (line 92): for a body-carrying
route, the request body after the credential relay; `undefined` otherwise. -/
def processedBody (req : McpRequest) : Option Json :=
  if req.hasBody then
    match req.body with
    | some b => some (relayBody req.headers b)
    | none => none
  else none

/-- `handleWithTransport` (the express server file, lines 52-97) as one pure
step: returns the outcome and the session table afterwards.  `isInit` stands
for the SDK's `isInitializeRequest` predicate (an external dependency, kept
abstract); `freshSessionId` / `freshTransportId` stand for the
`randomUUID()` session id and the new transport created in the initialization
branch, whose registration in the table (`onsessioninitialized`) is folded
into the same step.  The try/catch 500 path wraps only the forwarding itself
and is outside the model. -/
def handleWithTransport (isInit : Option Json → Bool) (freshSessionId : String)
    (freshTransportId : Nat) (table : List (String × Nat)) (req : McpRequest) :
    HandleOutcome × List (String × Nat) :=
  let sessionId := normalizeSessionId req.sessionHeader
  let transport := activeTransport table sessionId
  match transport with
  | some tid => (.forward tid (processedBody req), table)
  | none =>
      if req.hasBody && isInit req.body then
        (.initNew freshTransportId (processedBody req),
          (freshSessionId, freshTransportId) :: table)
      else
        (.badRequest 400 noValidSessionError, table)

/-- Modelled from the claim's words (C4 as stated): inspect the
`authorization` header first and the `x-mcp-proxy-auth` header second, strip
the `Bearer` prefix and whitespace from whichever is PRESENT first and inject
the result; only when neither header is present do the arguments pass through
unchanged. -/
def claimedRelayArguments (headers : String → Option String) (args : Json) : Json :=
  if jsTruthyOpt (jsGet args "authorization") then args
  else
    match headers "authorization" with
    | some h => jsSpreadSet args "authorization" (.str (stripBearerTrim h))
    | none =>
        match headers "x-mcp-proxy-auth" with
        | some h => jsSpreadSet args "authorization" (.str (stripBearerTrim h))
        | none => args

/-- Modelled from the amended claim: strip each candidate header and inject
the first stripped value that is non-empty; when no candidate yields a
non-empty value the arguments pass through unchanged. -/
def amendedRelayArguments (headers : String → Option String) (args : Json) : Json :=
  if jsTruthyOpt (jsGet args "authorization") then args
  else
    match (headers "authorization").map stripBearerTrim with
    | some s =>
        if s = "" then
          match (headers "x-mcp-proxy-auth").map stripBearerTrim with
          | some t => if t = "" then args else jsSpreadSet args "authorization" (.str t)
          | none => args
        else jsSpreadSet args "authorization" (.str s)
    | none =>
        match (headers "x-mcp-proxy-auth").map stripBearerTrim with
        | some t => if t = "" then args else jsSpreadSet args "authorization" (.str t)
        | none => args

example :
    relayArguments (fun k => if k = "authorization" then some "Bearer 1234567" else none)
      (.obj []) = .obj [("authorization", .str "1234567")] := rfl
example :
    relayArguments
      (fun k =>
        if k = "authorization" then some "Bearer "
        else if k = "x-mcp-proxy-auth" then some "tok2" else none)
      (.obj []) = .obj [("authorization", .str "tok2")] := rfl

/-! Helper lemmas shared by the claim theorems. -/

theorem cleanChar_idem (c : Char) : cleanChar (cleanChar c) = cleanChar c := by
  by_cases h : isToolNameChar c = true
  · simp [cleanChar, h]
  · simp [cleanChar, h]

theorem toZodProps_eq_map (props : List (String × SchemaFragment)) (req : List String) :
    toZodProps props req =
      props.map (fun p =>
        (p.1, if p.1 ∈ req then toZodFrag p.2 else .optionalNode (toZodFrag p.2))) := by
  induction props with
  | nil => rfl
  | cons p rest ih => cases p; simp [toZodProps, ih]

theorem toZodProps_keys (props : List (String × SchemaFragment)) (req : List String) :
    (toZodProps props req).map Prod.fst = props.map Prod.fst := by
  rw [toZodProps_eq_map]
  simp

theorem lookupField_append_ne (jfields : List (String × Json)) (k key : String) (v : Json)
    (h : key ≠ k) :
    lookupField (jfields ++ [(k, v)]) key = lookupField jfields key := by
  induction jfields with
  | nil => simp [lookupField, Ne.symm h]
  | cons f rest ih =>
      cases f with
      | mk k' w => by_cases hk : k' = key <;> simp [lookupField, hk, ih]

theorem zodAcceptsShape_append_unknown (shape : List (String × ZodNode))
    (jfields : List (String × Json)) (k : String) (v : Json)
    (h : k ∉ shape.map Prod.fst) :
    zodAcceptsShape shape (jfields ++ [(k, v)]) = zodAcceptsShape shape jfields := by
  induction shape with
  | nil => rfl
  | cons entry rest ih =>
      cases entry with
      | mk key node =>
          have hkey : key ≠ k := by
            intro hh
            exact h (by simp [hh])
          have hrest : k ∉ rest.map Prod.fst := by
            intro hh
            exact h (by simp [hh])
          simp [zodAcceptsShape, lookupField_append_ne jfields k key v hkey, ih hrest]

theorem zodAcceptsUnion_literals (l : List Json) (v : Json) :
    zodAcceptsUnion (l.map ZodNode.literalNode) v = true ↔ v ∈ l := by
  induction l with
  | nil => simp [zodAcceptsUnion]
  | cons a rest ih => simp [zodAcceptsUnion, zodAccepts, jsonBeq_iff, ih]

theorem lookupField_upsert_ne (fields : List (String × Json)) (key k : String) (v : Json)
    (h : k ≠ key) :
    lookupField (upsert fields key v) k = lookupField fields k := by
  induction fields with
  | nil => simp [upsert, lookupField, Ne.symm h]
  | cons f rest ih =>
      cases f with
      | mk k' w =>
          by_cases hk : k' = key
          · subst hk
            simp [upsert, lookupField, Ne.symm h]
          · by_cases hq : k' = k
            · subst hq
              simp [upsert, lookupField, hk]
            · simp [upsert, lookupField, hk, hq, ih]

theorem buildParams_missing_path (params : List Param) (restArgs : String → Option Json) :
    ∀ (urlPath : String) (queryParams : List (String × String)),
      (∃ p ∈ params, p.paramIn = "path" ∧
        (restArgs p.name = none ∨ restArgs p.name = some .null)) →
      ∃ q ∈ params, q.paramIn = "path" ∧
        (restArgs q.name = none ∨ restArgs q.name = some .null) ∧
        buildParams params restArgs urlPath queryParams = .error q.name := by
  induction params with
  | nil =>
      rintro _ _ ⟨p, hp, _⟩
      simp at hp
  | cons param rest ih =>
      rintro urlPath queryParams ⟨p, hp, hpath, hmiss⟩
      by_cases h1 : param.paramIn = "path"
      · cases hval : restArgs param.name with
        | none =>
            exact ⟨param, List.mem_cons_self _ _, h1, Or.inl hval,
              by simp [buildParams, h1, hval]⟩
        | some v =>
            by_cases hv : v = Json.null
            · subst hv
              exact ⟨param, List.mem_cons_self _ _, h1, Or.inr hval,
                by simp [buildParams, h1, hval]⟩
            · have hpv : p ∈ rest := by
                rcases List.mem_cons.mp hp with rfl | hmem
                · rcases hmiss with hm | hm
                  · rw [hval] at hm; cases hm
                  · rw [hval] at hm
                    exact absurd (Option.some.inj hm) hv
                · exact hmem
              obtain ⟨q, hq, hqpath, hqmiss, heq⟩ :=
                ih (replaceFirst urlPath ("\x7b" ++ param.name ++ "\x7d")
                  (encodeURIComponent (jsString v))) queryParams ⟨p, hpv, hpath, hmiss⟩
              exact ⟨q, List.mem_cons_of_mem _ hq, hqpath, hqmiss,
                by simp [buildParams, h1, hval, hv]; exact heq⟩
      · have hpv : p ∈ rest := by
          rcases List.mem_cons.mp hp with rfl | hmem
          · exact absurd hpath h1
          · exact hmem
        by_cases h2 : param.paramIn = "query"
        · cases hval : restArgs param.name with
          | none =>
              obtain ⟨q, hq, hqpath, hqmiss, heq⟩ :=
                ih urlPath queryParams ⟨p, hpv, hpath, hmiss⟩
              exact ⟨q, List.mem_cons_of_mem _ hq, hqpath, hqmiss,
                by simp [buildParams, h1, h2, hval]; exact heq⟩
          | some v =>
              obtain ⟨q, hq, hqpath, hqmiss, heq⟩ :=
                ih urlPath (queryParams ++ [(param.name, jsString v)])
                  ⟨p, hpv, hpath, hmiss⟩
              exact ⟨q, List.mem_cons_of_mem _ hq, hqpath, hqmiss,
                by simp [buildParams, h1, h2, hval]; exact heq⟩
        · obtain ⟨q, hq, hqpath, hqmiss, heq⟩ :=
            ih urlPath queryParams ⟨p, hpv, hpath, hmiss⟩
          exact ⟨q, List.mem_cons_of_mem _ hq, hqpath, hqmiss,
            by simp [buildParams, h1, h2]; exact heq⟩

theorem buildParams_congr (params : List Param) (r1 r2 : String → Option Json)
    (hagree : ∀ p ∈ params, r1 p.name = r2 p.name) :
    ∀ (urlPath : String) (queryParams : List (String × String)),
      buildParams params r1 urlPath queryParams = buildParams params r2 urlPath queryParams := by
  induction params with
  | nil => intro _ _; rfl
  | cons param rest ih =>
      intro urlPath queryParams
      have hhead : r1 param.name = r2 param.name := hagree param (List.mem_cons_self _ _)
      have htail : ∀ p ∈ rest, r1 p.name = r2 p.name :=
        fun p hp => hagree p (List.mem_cons_of_mem _ hp)
      simp only [buildParams, hhead]
      by_cases h1 : param.paramIn = "path"
      · cases hval : r2 param.name with
        | none => simp [h1, hval]
        | some v =>
            by_cases hv : v = Json.null <;> simp [h1, hval, hv, ih htail]
      · by_cases h2 : param.paramIn = "query"
        · cases hval : r2 param.name with
          | none => simp [h1, h2, hval, ih htail]
          | some v => simp [h1, h2, hval, ih htail]
        · simp [h1, h2, ih htail]

theorem invokeTool_authHeader (pathKey method : String) (operation : Operation)
    (defaultAuth baseUrl : String) (args : String → Option Json) (config : RequestConfig)
    (heq : invokeTool pathKey method operation defaultAuth baseUrl args = .httpRequest config) :
    config.authorizationHeader =
      (if jsTruthy (jsOrJson (args "authorization") (.str defaultAuth))
       then some (jsOrJson (args "authorization") (.str defaultAuth)) else none) := by
  unfold invokeTool at heq
  cases hb : buildParams operation.parameters (restArgsOf args) pathKey [] with
  | error name => rw [hb] at heq; cases heq
  | ok pr =>
      cases pr with
      | mk urlPath queryParams =>
          rw [hb] at heq
          cases heq
          rfl

/-! The claim theorems. -/

/-- C8: the tool-name sanitizer (replace every character outside
`[A-Za-z0-9_-]` with `'-'`, then truncate to 64 characters) is idempotent:
for every string `x`, `sanitize(sanitize(x)) = sanitize(x)`. -/
theorem c8_sanitize_idempotent (x : String) :
    sanitizeName (sanitizeName x) = sanitizeName x := by
  show (⟨((((x.data.map cleanChar).take 64).map cleanChar).take 64 : List Char)⟩ : String) =
    (⟨((x.data.map cleanChar).take 64 : List Char)⟩ : String)
  have hmap : cleanChar ∘ cleanChar = cleanChar := funext cleanChar_idem
  rw [List.map_take, List.map_map, hmap, List.take_take]
  simp

/-- C6 counterexample: the claim says a tool is registered only for keys among
the known HTTP verbs, but the source has no such check: the key `foo` with a
plain-object value passes the registration filter although it is no HTTP
verb. -/
theorem c6_counterexample :
    isRegisteredKey "foo" (.obj []) = true ∧ "foo" ∉ knownHttpVerbs := by
  exact ⟨by decide, by decide⟩

/-- C6 (amended): for every key under a path entry, the registry registers a
tool iff the key is not the literal `parameters`, does not start with `x-`,
and its value is a plain (non-null, non-array) object; keys are never checked
against the set of known HTTP verbs. -/
theorem c6_registration_filter :
    (∀ (methodKey : String) (operation : Json),
        isRegisteredKey methodKey operation = true ↔
          methodKey ≠ "parameters" ∧ strStartsWith methodKey "x-" = false ∧
            isPlainObject operation = true) ∧
    (∀ (methods : List (String × Json)) (entry : String × Json),
        entry ∈ registeredOps methods ↔
          entry ∈ methods ∧ isRegisteredKey entry.1 entry.2 = true) := by
  constructor
  · intro methodKey operation
    unfold isRegisteredKey
    by_cases h1 : methodKey = "parameters" <;>
      by_cases h2 : isPlainObject operation = true <;>
        by_cases h3 : strStartsWith methodKey "x-" = true <;>
          simp_all
  · intro methods entry
    simp [registeredOps, List.mem_filter]

/-- C7: for every schema fragment declaring a non-empty `enum`, the translated
node is (up to the behaviour-free description wrapper) a closed union of the
literal values drawn from that enumeration, regardless of the fragment's base
`type`: it accepts exactly the enumerated values. -/
theorem c7_enum_closed_union (frag : SchemaFragment) (h : frag.enum ≠ []) :
    stripDescription (toZod (some frag)) =
      .unionNode (frag.enum.map ZodNode.literalNode) ∧
    ∀ v : Json, zodAccepts (toZod (some frag)) v = true ↔ v ∈ frag.enum := by
  obtain ⟨ty, items, props, req, ap, en, desc⟩ := frag
  have hne : en ≠ [] := h
  have hise : en.isEmpty = false := by
    cases en with
    | nil => exact absurd rfl hne
    | cons a rest => rfl
  constructor
  · show stripDescription (toZodFrag (.mk ty items props req ap en desc)) = _
    unfold toZodFrag
    cases desc <;> simp [hise, stripDescription, SchemaFragment.enum]
  · intro v
    show zodAccepts (toZodFrag (.mk ty items props req ap en desc)) v = true ↔ _
    unfold toZodFrag
    cases desc <;>
      simp [hise, zodAccepts, zodAcceptsUnion_literals, SchemaFragment.enum]

/-- C7 witness: a string-typed fragment with `enum: ["x", "y"]` translates to
the closed union of the two literals and accepts the value `"y"`. -/
theorem c7_witness :
    stripDescription
        (toZod (some (.mk (some "string") none [] [] none [.str "x", .str "y"] none))) =
      .unionNode [.literalNode (.str "x"), .literalNode (.str "y")] ∧
    (zodAccepts (toZod (some (.mk (some "string") none [] [] none [.str "x", .str "y"] none)))
        (.str "y") = true ↔ Json.str "y" ∈ [Json.str "x", Json.str "y"]) := by
  have h := c7_enum_closed_union
    (.mk (some "string") none [] [] none [.str "x", .str "y"] none) (by decide)
  exact ⟨h.1, h.2 (.str "y")⟩

/-- C2: for every operation with a required path parameter, invoking the bound
function with that parameter's value missing (absent or null) returns the
structured error result naming a missing path parameter, and no outbound HTTP
request is issued. -/
theorem c2_missing_path_param (pathKey method : String) (operation : Operation)
    (defaultAuth baseUrl : String) (args : String → Option Json) (p : Param)
    (hp : p ∈ operation.parameters) (hpath : p.paramIn = "path") (_hreq : p.required = true)
    (hmiss : args p.name = none ∨ args p.name = some .null) :
    (∃ q ∈ operation.parameters, q.paramIn = "path" ∧
      (restArgsOf args q.name = none ∨ restArgsOf args q.name = some .null) ∧
      invokeTool pathKey method operation defaultAuth baseUrl args =
        .errorResult ("Missing required path param: " ++ q.name)) ∧
    ∀ config : RequestConfig,
      invokeTool pathKey method operation defaultAuth baseUrl args ≠ .httpRequest config := by
  have hmiss' : restArgsOf args p.name = none ∨ restArgsOf args p.name = some .null := by
    unfold restArgsOf
    by_cases hn : (p.name = "authorization" || p.name = "body") = true
    · simp [hn]
    · simp [hn]
      exact hmiss
  obtain ⟨q, hq, hqpath, hqmiss, heq⟩ :=
    buildParams_missing_path operation.parameters (restArgsOf args) pathKey []
      ⟨p, hp, hpath, hmiss'⟩
  have hout : invokeTool pathKey method operation defaultAuth baseUrl args =
      .errorResult ("Missing required path param: " ++ q.name) := by
    unfold invokeTool
    rw [heq]
  exact ⟨⟨q, hq, hqpath, hqmiss, hout⟩, fun config hcfg => by rw [hout] at hcfg; cases hcfg⟩

/-- C2 witness: the operation `GET /hotels/(id)` with required path parameter
`id`, invoked with no arguments at all, yields the structured
missing-parameter error. -/
theorem c2_witness :
    ∃ q ∈ ([⟨"id", "path", true, none⟩] : List Param), q.paramIn = "path" ∧
      (restArgsOf (fun _ => none) q.name = none ∨
        restArgsOf (fun _ => none) q.name = some .null) ∧
      invokeTool "/hotels/\x7bid\x7d" "get"
          ⟨none, none, none, [⟨"id", "path", true, none⟩], none⟩ "tok" "http://api"
          (fun _ => none) =
        .errorResult ("Missing required path param: " ++ q.name) := by
  exact (c2_missing_path_param "/hotels/\x7bid\x7d" "get"
    ⟨none, none, none, [⟨"id", "path", true, none⟩], none⟩ "tok" "http://api"
    (fun _ => none) ⟨"id", "path", true, none⟩ (by simp) rfl rfl (Or.inl rfl)).1

/-- C5 counterexample: the claim says the effective credential is the explicit
`authorization` argument whenever one is supplied, but the source resolves it
with JS `||`: supplying the (falsy) empty string as the explicit credential
makes the outbound request carry the default credential instead. -/
theorem c5_counterexample :
    invokeTool "/offers/today" "get" ⟨none, none, none, [], none⟩ "tok" "http://api"
        (fun k => if k = "authorization" then some (.str "") else none) =
      .httpRequest ⟨"get", ⟨"http://api", "/offers/today", ""⟩, some (.str "tok"), none, none⟩ ∧
    some (Json.str "tok") ≠ some (Json.str "") := by
  exact ⟨by decide, by decide⟩

/-- C5 (amended): the effective credential is the explicit `authorization`
argument when it is supplied and truthy (non-empty); otherwise it is the
default credential configured for the registration, carried in the
`Authorization` header exactly when it is non-empty.  In particular a
parameterless GET tool invoked with no credential issues an outbound GET to
baseUrl plus the operation path with the default credential and no query
string. -/
theorem c5_credential_resolution :
    (∀ (pathKey method : String) (operation : Operation) (defaultAuth baseUrl : String)
        (args : String → Option Json) (a : Json) (config : RequestConfig),
        args "authorization" = some a → jsTruthy a = true →
        invokeTool pathKey method operation defaultAuth baseUrl args = .httpRequest config →
        config.authorizationHeader = some a) ∧
    (∀ (pathKey method : String) (operation : Operation) (defaultAuth baseUrl : String)
        (args : String → Option Json) (config : RequestConfig),
        jsTruthyOpt (args "authorization") = false →
        invokeTool pathKey method operation defaultAuth baseUrl args = .httpRequest config →
        config.authorizationHeader =
          (if defaultAuth = "" then none else some (.str defaultAuth))) ∧
    (∀ (defaultAuth baseUrl : String),
        invokeTool "/offers/today" "get" ⟨none, none, none, [], none⟩ defaultAuth baseUrl
            (fun _ => none) =
          .httpRequest ⟨"get", ⟨baseUrl, "/offers/today", ""⟩,
            (if defaultAuth = "" then none else some (.str defaultAuth)), none, none⟩) := by
  refine ⟨?_, ?_, ?_⟩
  · intro pathKey method operation defaultAuth baseUrl args a config ha htruthy heq
    have h := invokeTool_authHeader pathKey method operation defaultAuth baseUrl args config heq
    rw [ha] at h
    simpa [jsOrJson, htruthy] using h
  · intro pathKey method operation defaultAuth baseUrl args config hfalsy heq
    have h := invokeTool_authHeader pathKey method operation defaultAuth baseUrl args config heq
    cases ha : args "authorization" with
    | none =>
        rw [ha] at h
        by_cases hd : defaultAuth = "" <;>
          simpa [jsOrJson, jsTruthy, hd] using h
    | some a =>
        rw [ha] at h
        have hfa : jsTruthy a = false := by
          rw [ha] at hfalsy
          simpa [jsTruthyOpt] using hfalsy
        have hj : jsOrJson (some a) (Json.str defaultAuth) = Json.str defaultAuth := by
          simp [jsOrJson, hfa]
        rw [hj] at h
        by_cases hd : defaultAuth = ""
        · subst hd
          simpa [jsTruthy] using h
        · simpa [jsTruthy, bne_iff_ne, hd] using h
  · intro defaultAuth baseUrl
    unfold invokeTool
    by_cases hd : defaultAuth = "" <;>
      simp [hd, buildParams, jsOrJson, jsTruthy, jsTruthyOpt, restArgsOf, searchParamsToString]

/-- C5 witness: the scenario tool `GET /offers/today` with default credential
`tok`, invoked with no arguments, issues a GET carrying `Authorization: tok`
and no query string. -/
theorem c5_witness :
    invokeTool "/offers/today" "get" ⟨none, none, none, [], none⟩ "tok" "http://api"
        (fun _ => none) =
      .httpRequest ⟨"get", ⟨"http://api", "/offers/today", ""⟩, some (.str "tok"), none,
        none⟩ := by
  have h := c5_credential_resolution.2.2 "tok" "http://api"
  simpa using h

/-- C9: call-time argument fields that are neither `authorization`, `body`,
nor the name of a declared parameter have no effect on the outbound request:
two invocations agreeing on those keys produce the same outcome (same method,
URL, query string, headers and body). -/
theorem c9_undeclared_args_no_effect (pathKey method : String) (operation : Operation)
    (defaultAuth baseUrl : String) (args1 args2 : String → Option Json)
    (hauth : args1 "authorization" = args2 "authorization")
    (hbody : args1 "body" = args2 "body")
    (hparams : ∀ p ∈ operation.parameters, args1 p.name = args2 p.name) :
    invokeTool pathKey method operation defaultAuth baseUrl args1 =
      invokeTool pathKey method operation defaultAuth baseUrl args2 := by
  have hrest : ∀ p ∈ operation.parameters, restArgsOf args1 p.name = restArgsOf args2 p.name := by
    intro p hp
    unfold restArgsOf
    by_cases hn : (p.name = "authorization" || p.name = "body") = true
    · simp [hn]
    · simp only [hn]
      simp only [Bool.false_eq_true, if_false]
      exact hparams p hp
  unfold invokeTool
  rw [hauth, hbody,
    buildParams_congr operation.parameters (restArgsOf args1) (restArgsOf args2) hrest pathKey []]

/-- C9 witness: adding an undeclared `extra` argument to a call of a tool with
one declared query parameter `q` leaves the outbound request unchanged. -/
theorem c9_witness :
    invokeTool "/search" "get" ⟨none, none, none, [⟨"q", "query", false, none⟩], none⟩ "tok"
        "http://api"
        (fun k =>
          if k = "q" then some (.str "v")
          else if k = "extra" then some (.num 7) else none) =
      invokeTool "/search" "get" ⟨none, none, none, [⟨"q", "query", false, none⟩], none⟩ "tok"
        "http://api" (fun k => if k = "q" then some (.str "v") else none) := by
  apply c9_undeclared_args_no_effect
  · decide
  · decide
  · intro p hp
    have hp' : p = ⟨"q", "query", false, none⟩ := by simpa using hp
    subst hp'
    decide

/-- C3: an inbound request carrying a session identifier not present in the
session table, whose body is not a valid initialization payload, is answered
with the 400-status structured JSON-RPC error; no session entry is created and
nothing is forwarded to any transport. -/
theorem c3_unknown_session_rejected (isInit : Option Json → Bool) (freshSessionId : String)
    (freshTransportId : Nat) (table : List (String × Nat)) (req : McpRequest) (sid : String)
    (hsid : normalizeSessionId req.sessionHeader = some sid)
    (hmiss : lookupSession table sid = none)
    (hninit : req.hasBody = false ∨ isInit req.body = false) :
    handleWithTransport isInit freshSessionId freshTransportId table req =
      (.badRequest 400 noValidSessionError, table) := by
  have htr : activeTransport table (normalizeSessionId req.sessionHeader) = none := by
    rw [hsid]
    by_cases h0 : sid = "" <;> simp [activeTransport, h0, hmiss]
  rcases hninit with h | h <;> simp [handleWithTransport, htr, h]

/-- C3 witness: a POST carrying the unknown session id `zzz` and a
non-initialization body is answered with the 400 JSON-RPC error and the
session table is untouched. -/
theorem c3_witness :
    handleWithTransport (fun _ => false) "fresh" 7 [("abc", 0)]
        ⟨some (.single "zzz"), true, some (.obj [("method", .str "tools/list")]),
          fun _ => none⟩ =
      (.badRequest 400 noValidSessionError, [("abc", 0)]) := by
  exact c3_unknown_session_rejected (fun _ => false) "fresh" 7 [("abc", 0)]
    ⟨some (.single "zzz"), true, some (.obj [("method", .str "tools/list")]), fun _ => none⟩
    "zzz" (by decide) (by decide) (Or.inr rfl)

/-- C4 counterexample: the claim says the relay strips and injects the value
of whichever candidate header is present first, but the source falls through
on a present header whose stripped value is empty: with
`authorization: "Bearer "` (stripping to the empty string) and
`x-mcp-proxy-auth: "tok2"`, the code injects `tok2` while the claimed
behaviour injects the empty string. -/
theorem c4_counterexample :
    relayArguments
        (fun k =>
          if k = "authorization" then some "Bearer "
          else if k = "x-mcp-proxy-auth" then some "tok2" else none)
        (.obj []) = .obj [("authorization", .str "tok2")] ∧
    claimedRelayArguments
        (fun k =>
          if k = "authorization" then some "Bearer "
          else if k = "x-mcp-proxy-auth" then some "tok2" else none)
        (.obj []) = .obj [("authorization", .str "")] ∧
    Json.obj [("authorization", .str "tok2")] ≠ .obj [("authorization", .str "")] := by
  exact ⟨by decide, by decide, by decide⟩

/-- C4 (amended): for a tools/call request whose arguments carry no truthy
`authorization` value, the relay strips the `Bearer` prefix and surrounding
whitespace from each of the two candidate headers (`authorization` first,
`x-mcp-proxy-auth` second) and injects the first stripped value that is
non-empty; when no candidate yields a non-empty value — in particular when
neither header is present — the arguments pass through unchanged. -/
theorem c4_relay_first_nonempty (headers : String → Option String) (args : Json) :
    relayArguments headers args = amendedRelayArguments headers args := by
  unfold relayArguments injectedArguments amendedRelayArguments effectiveHeaderCred
    headerAuthValue
  by_cases h0 : jsTruthyOpt (jsGet args "authorization") = true
  · simp [h0]
  · rcases ha : headers "authorization" with _ | h1 <;>
      rcases hx : headers "x-mcp-proxy-auth" with _ | h2 <;>
        simp [h0, ha, hx, jsOrStr] <;>
          split_ifs <;> simp_all

/-- C10: when the relay injects a header-derived credential, every field of
the arguments object other than `authorization` is preserved; when the
arguments already carry a truthy `authorization` value, nothing is injected
and the arguments are left untouched. -/
theorem c10_injection_frame (headers : String → Option String)
    (fields : List (String × Json)) :
    (∀ newArgs : Json, injectedArguments headers (.obj fields) = some newArgs →
        ∀ k : String, k ≠ "authorization" → jsGet newArgs k = jsGet (.obj fields) k) ∧
    (jsTruthyOpt (jsGet (.obj fields) "authorization") = true →
        injectedArguments headers (.obj fields) = none) := by
  constructor
  · intro newArgs hinj k hk
    unfold injectedArguments at hinj
    by_cases h0 : jsTruthyOpt (jsGet (.obj fields) "authorization") = true
    · simp [h0] at hinj
    · cases hc : effectiveHeaderCred headers with
      | none => simp [h0, hc] at hinj
      | some s =>
          simp [h0, hc] at hinj
          rw [← hinj]
          show lookupField (upsert fields "authorization" (.str s)) k =
            lookupField fields k
          exact lookupField_upsert_ne fields "authorization" k (.str s) hk
  · intro h0
    simp [injectedArguments, h0]

/-- C10 witness: injecting the credential `1234567` into arguments
`(city: "Rome")` preserves the `city` field. -/
theorem c10_witness :
    jsGet (Json.obj [("city", .str "Rome"), ("authorization", .str "1234567")]) "city" =
      jsGet (Json.obj [("city", .str "Rome")]) "city" := by
  exact (c10_injection_frame
      (fun k => if k = "authorization" then some "Bearer 1234567" else none)
      [("city", .str "Rome")]).1
    (.obj [("city", .str "Rome"), ("authorization", .str "1234567")]) (by decide)
    "city" (by decide)

/-- C1 counterexample: the claim quantifies over every fragment with
`type: "object"`, but a fragment that also declares a non-empty `enum` is
overridden to a closed union of literals: it is no object node and it rejects
an object value outright (so "unknown fields are never rejected" fails). -/
theorem c1_counterexample :
    toZod (some (.mk (some "object") none [] [] none [.str "a"] none)) =
      .unionNode [.literalNode (.str "a")] ∧
    zodAccepts (toZod (some (.mk (some "object") none [] [] none [.str "a"] none)))
        (.obj []) = false := by
  exact ⟨rfl, rfl⟩

/-- C1 (amended): for every fragment with `type: "object"` and no non-empty
`enum` override, the translation is (up to the behaviour-free description
wrapper) an object node with one field per declared property — the field
required iff its name appears in the fragment's `required` list, optional
otherwise — whose unknown-field policy is `catchall` of the translated
`additionalProperties` schema when one is declared and `passthrough`
otherwise.  Consequently unknown fields are never rejected when
`additionalProperties` is absent (adding one changes nothing about
acceptance), and when `additionalProperties` is declared every accepted
unknown field conforms to its schema. -/
theorem c1_object_translation (frag : SchemaFragment)
    (hty : frag.type = some "object") (hen : frag.enum = []) :
    (stripDescription (toZod (some frag)) =
      .objectNode
        (frag.properties.map (fun p =>
          (p.1, if p.1 ∈ frag.required then toZodFrag p.2
                else .optionalNode (toZodFrag p.2))))
        (frag.additionalProperties.map toZodFrag)) ∧
    (frag.additionalProperties = none →
      ∀ (jfields : List (String × Json)) (k : String) (v : Json),
        k ∉ frag.properties.map Prod.fst →
        zodAccepts (toZod (some frag)) (.obj (jfields ++ [(k, v)])) =
          zodAccepts (toZod (some frag)) (.obj jfields)) ∧
    (∀ apSchema, frag.additionalProperties = some apSchema →
      ∀ (jfields : List (String × Json)) (k : String) (v : Json),
        (k, v) ∈ jfields → k ∉ frag.properties.map Prod.fst →
        zodAccepts (toZod (some frag)) (.obj jfields) = true →
        zodAccepts (toZodFrag apSchema) v = true) := by
  obtain ⟨ty, items, props, req, ap, en, desc⟩ := frag
  obtain rfl : ty = some "object" := hty
  obtain rfl : en = [] := hen
  have hfrag : toZod (some (.mk (some "object") items props req ap [] desc)) =
      (match desc with
       | some d => ZodNode.describeNode d
           (.objectNode (toZodProps props req) (ap.map toZodFrag))
       | none => .objectNode (toZodProps props req) (ap.map toZodFrag)) := by
    cases desc <;> cases ap <;> rfl
  refine ⟨?_, ?_, ?_⟩
  · rw [hfrag]
    cases ap <;> cases desc <;>
      simp [stripDescription, toZodProps_eq_map, SchemaFragment.properties,
        SchemaFragment.required, SchemaFragment.additionalProperties]
  · intro hap jfields k v hk
    obtain rfl : ap = none := hap
    have hkeys : k ∉ (toZodProps props req).map Prod.fst := by
      rw [toZodProps_keys]
      exact hk
    rw [hfrag]
    cases desc <;>
      simp [zodAccepts, zodAcceptsShape_append_unknown _ jfields k v hkeys]
  · intro apSchema hap jfields k v hmem hk hacc
    obtain rfl : ap = some apSchema := hap
    have hkeys : k ∉ (toZodProps props req).map Prod.fst := by
      rw [toZodProps_keys]
      exact hk
    rw [hfrag] at hacc
    cases desc <;>
      · simp [zodAccepts, List.all_eq_true] at hacc
        rcases hacc.2 k v hmem with hin | hok
        · obtain ⟨w, hw⟩ := hin
          exact absurd (List.mem_map.mpr ⟨(k, w), hw, rfl⟩) hkeys
        · exact hok

/-- C1 witness: the round-trip fragment (`type: "object"`,
`required: ["a"]`, properties `a: string`, `b: integer`) translates to an
object node marking `a` required and `b` optional, and an extra unknown field
`c` does not affect acceptance (pass-through). -/
theorem c1_witness :
    stripDescription (toZod (some (.mk (some "object") none
        [("a", .mk (some "string") none [] [] none [] none),
         ("b", .mk (some "integer") none [] [] none [] none)] ["a"] none [] none))) =
      .objectNode [("a", .stringNode), ("b", .optionalNode .numberNode)] none ∧
    zodAccepts (toZod (some (.mk (some "object") none
        [("a", .mk (some "string") none [] [] none [] none),
         ("b", .mk (some "integer") none [] [] none [] none)] ["a"] none [] none)))
        (.obj [("a", .str "x"), ("c", .num 5)]) =
      zodAccepts (toZod (some (.mk (some "object") none
        [("a", .mk (some "string") none [] [] none [] none),
         ("b", .mk (some "integer") none [] [] none [] none)] ["a"] none [] none)))
        (.obj [("a", .str "x")]) := by
  have h := c1_object_translation (.mk (some "object") none
    [("a", .mk (some "string") none [] [] none [] none),
     ("b", .mk (some "integer") none [] [] none [] none)] ["a"] none [] none) rfl rfl
  refine ⟨?_, ?_⟩
  · simpa using h.1
  · simpa using h.2.1 rfl [("a", .str "x")] "c" (.num 5) (by decide)
